import Mathlib

/-!
Verification of the Eitun Lyrics Box core.

The repository snapshot contains types.ts and the App component.  The LRC
parser (utils/lrcParser, entry point parseLrc) and the time-sync resolver
(inside LyricsDisplay) are imported by the App component but their source
files are not in the snapshot, so they are modelled from the spec (sections
4.1 and 4.2); every definition so marked carries a doc comment starting
with "Modelled from the spec:".  The App component's handlers are embedded
directly from the source as a state-transition system; timestamps are
embedded as rationals.
-/

/-- From types.ts: one parsed lyric entry (time in seconds, primary text,
optional translated text, the exact original timestamp tag substring). -/
structure LyricLine where
  time : ℚ
  text : String
  translation : Option String := none
  originalTimeTag : String
deriving DecidableEq, Repr

/-- From types.ts: parse-result wrapper keeping the raw LRC text together
with the parsed sequence. -/
structure GeneratedLyrics where
  rawLrc : String
  parsedLines : List LyricLine
deriving DecidableEq, Repr

/-- From types.ts: the processing status enumeration. -/
inductive ProcessingStatus where
  | IDLE
  | UPLOADING
  | GENERATING
  | COMPLETE
  | ERROR
deriving DecidableEq, Repr

/-- Modelled from the spec: one candidate (timestamp, text) pair produced by
step 6 of the parsing algorithm, before the merge step (section 4.1). -/
structure Cand where
  time : ℚ
  text : String
  tag : String
deriving DecidableEq, Repr

/-- Numeric value of a decimal digit character. -/
def digitVal (c : Char) : Nat := c.toNat - 48

/-- Modelled from the spec: a matched tag converts to seconds as
minutes*60 + seconds + fraction/10^digits (section 4.1 step 3). -/
def tagTime (m1 m2 s1 s2 : Char) (frac den : Nat) : ℚ :=
  ((digitVal m1 : ℚ) * 10 + (digitVal m2 : ℚ)) * 60 +
    ((digitVal s1 : ℚ) * 10 + (digitVal s2 : ℚ)) + (frac : ℚ) / (den : ℚ)

/-- Modelled from the spec: match one leading timestamp tag of the exact
form [MM:SS.CC] or [MM:SS.CCC] (two-digit minutes, two-digit seconds, two-
or three-digit fraction); on success return the tag's time in seconds, the
exact tag substring, and the rest of the line (section 4.1 step 2). -/
def matchTag : List Char → Option (ℚ × String × List Char)
  | a :: b :: c :: d :: e :: f :: g :: x :: y :: rest =>
    if a = '[' ∧ b.isDigit ∧ c.isDigit ∧ d = ':' ∧ e.isDigit ∧ f.isDigit ∧
        g = '.' ∧ x.isDigit ∧ y.isDigit then
      match rest with
      | z :: rest2 =>
        if z = ']' then
          some (tagTime b c e f (digitVal x * 10 + digitVal y) 100,
            String.mk [a, b, c, d, e, f, g, x, y, z], rest2)
        else if z.isDigit then
          match rest2 with
          | w :: rest3 =>
            if w = ']' then
              some (tagTime b c e f (digitVal x * 100 + digitVal y * 10 + digitVal z) 1000,
                String.mk [a, b, c, d, e, f, g, x, y, z, w], rest3)
            else none
          | [] => none
        else none
      | [] => none
    else none
  | _ => none

/-- Modelled from the spec: collect the leading timestamp tags of a line.
The fuel argument bounds the recursion; a successful match consumes at
least ten characters, so fuel equal to the line length never runs out. -/
def parseTagsAux : Nat → List Char → List (ℚ × String) × List Char
  | 0, l => ([], l)
  | fuel + 1, l =>
    match matchTag l with
    | none => ([], l)
    | some (t, tag, rest) =>
      let p := parseTagsAux fuel rest
      ((t, tag) :: p.1, p.2)

/-- Modelled from the spec: the leading tags of a line together with the
remainder after the last tag (section 4.1 steps 2-4). -/
def parseTags (l : List Char) : List (ℚ × String) × List Char :=
  parseTagsAux l.length l

/-- Leading and trailing whitespace removed. -/
def trimChars (l : List Char) : List Char :=
  ((l.dropWhile Char.isWhitespace).reverse.dropWhile Char.isWhitespace).reverse

/-- Modelled from the spec: the candidate records of a single line - one per
leading tag, all sharing the trimmed remainder as text; a line with no tag
yields no candidates (section 4.1 steps 4-6). -/
def lineCands (l : List Char) : List Cand :=
  let p := parseTags l
  let txt := String.mk (trimChars p.2)
  p.1.map fun tt => { time := tt.1, text := txt, tag := tt.2 }

/-- Split on newline characters. -/
def splitNL : List Char → List (List Char)
  | [] => [[]]
  | c :: rest =>
    if c = '\n' then [] :: splitNL rest
    else
      match splitNL rest with
      | [] => [[c]]
      | l :: ls => (c :: l) :: ls

/-- Remove one trailing carriage return, so that \r\n line ends are
accepted (section 4.1 step 1). -/
def dropCR (l : List Char) : List Char :=
  if l.getLast? = some '\r' then l.dropLast else l

/-- Modelled from the spec: all candidate records of an input, in original
file order. -/
def candidatesOf (s : String) : List Cand :=
  (((splitNL s.data).map dropCR).map lineCands).flatten

/-- The fresh record a candidate becomes when its time is not yet present
(merge rule, section 4.1 step 7). -/
def newRecord (c : Cand) : LyricLine :=
  { time := c.time, text := c.text, translation := none, originalTimeTag := c.tag }

/-- Modelled from the spec: fold one candidate into the merged records.  A
first record at a time becomes primary, a second becomes its translation,
further records at the same time are dropped (section 4.1 step 7). -/
def addCand : List LyricLine → Cand → List LyricLine
  | [], c => [newRecord c]
  | r :: rs, c =>
    if r.time = c.time then
      (if r.translation = none then { r with translation := some c.text } else r) :: rs
    else r :: addCand rs c

/-- Modelled from the spec: merge all candidates, keeping first-occurrence
order of the distinct times (section 4.1 step 7). -/
def mergeCands (cs : List Cand) : List LyricLine := cs.foldl addCand []

/-- Order on records by time. -/
def lineLE (a b : LyricLine) : Prop := a.time ≤ b.time

instance : DecidableRel lineLE := fun a b => inferInstanceAs (Decidable (a.time ≤ b.time))

instance : IsTotal LyricLine lineLE := ⟨fun a b => le_total a.time b.time⟩

instance : IsTrans LyricLine lineLE := ⟨fun _ _ _ h1 h2 => le_trans h1 h2⟩

/-- Modelled from the spec: parse a list of (already newline-split) lines -
candidates, merge, sort ascending by time (section 4.1 steps 6-8). -/
def parseFromLines (lines : List (List Char)) : List LyricLine :=
  List.insertionSort lineLE (mergeCands ((lines.map lineCands).flatten))

/-- Modelled from the spec: the parser entry point parseLrc of
utils/lrcParser, whose source file is not in the snapshot - split the raw
text into lines, collect candidates, merge equal times, sort by time
(section 4.1). -/
def parseLrc (s : String) : List LyricLine :=
  parseFromLines ((splitNL s.data).map dropCR)

/-- Modelled from the spec: the expected merged record for the group of
candidates sharing one time - the first supplies the text, the second (when
present) the translation, the rest are dropped (section 4.1 step 7). -/
def mergeGroup : List Cand → Option LyricLine
  | [] => none
  | c :: rest =>
    some { time := c.time, text := c.text,
           translation := rest.head?.map Cand.text, originalTimeTag := c.tag }

/-- First merged record carrying the given time. -/
def findTime (t : ℚ) (l : List LyricLine) : Option LyricLine :=
  l.find? fun r => decide (r.time = t)

/-- Modelled from the spec: the time-sync resolver of LyricsDisplay, whose
source file is not in the snapshot - the greatest index whose time does not
exceed the current time, none when no line qualifies (section 4.2). -/
def resolveActiveIndex : List LyricLine → ℚ → Option Nat
  | [], _ => none
  | l :: ls, t =>
    match resolveActiveIndex ls t with
    | some i => some (i + 1)
    | none => if l.time ≤ t then some 0 else none

/-- The App component state (the useState fields plus the abortRef flag);
readsStarted counts calls starting a file read, to observe that the
generate handler's guard paths start no upload. -/
structure AppState where
  status : ProcessingStatus
  audioFile : Option String
  lyrics : List LyricLine
  rawLrc : String
  currentTime : ℚ
  isPlaying : Bool
  errorMessage : Option String
  showSettings : Bool
  userApiKey : String
  tempApiKey : String
  abortFlag : Bool
  readsStarted : Nat
deriving DecidableEq, Repr

/-- From the App component: handleFileSelect stores the file and resets the
lyric, raw-text, status, error, time and playing state. -/
def handleFileSelect (s : AppState) (name : String) : AppState :=
  { s with
      audioFile := some name,
      lyrics := [],
      rawLrc := "",
      status := .IDLE,
      errorMessage := none,
      currentTime := 0,
      isPlaying := false }

/-- From the App component: handleSaveApiKey commits the draft key and
closes the settings modal. -/
def handleSaveApiKey (s : AppState) : AppState :=
  { s with userApiKey := s.tempApiKey, showSettings := false }

/-- From the App component: the synchronous part of handleGenerateLyrics -
return unchanged without a file; with an empty key only open settings;
otherwise clear the abort flag, move to UPLOADING and start the file read. -/
def handleGenerateLyrics (s : AppState) : AppState :=
  if s.audioFile = none then s
  else if s.userApiKey = "" then { s with showSettings := true }
  else { s with
           abortFlag := false,
           status := .UPLOADING,
           readsStarted := s.readsStarted + 1 }

/-- From the App component: the reader onload callback up to the backend
call - a set abort flag suppresses it, otherwise status becomes GENERATING. -/
def readerOnLoad (s : AppState) : AppState :=
  if s.abortFlag then s else { s with status := .GENERATING }

/-- From the App component: the reader onerror callback - suppressed when
aborted, otherwise an error message and the ERROR status. -/
def readerOnError (s : AppState) : AppState :=
  if s.abortFlag then s
  else { s with
           errorMessage := some "Failed to read audio file.",
           status := .ERROR }

/-- From the App component: a backend result arriving - suppressed when
aborted, otherwise the raw text and its parse are stored and status becomes
COMPLETE. -/
def backendResolve (s : AppState) (lrc : String) : AppState :=
  if s.abortFlag then s
  else { s with
           rawLrc := lrc,
           lyrics := parseLrc lrc,
           status := .COMPLETE }

/-- From the App component: a backend error arriving - suppressed when
aborted, otherwise the message (with a fallback when empty) and the ERROR
status. -/
def backendReject (s : AppState) (msg : String) : AppState :=
  if s.abortFlag then s
  else { s with
           errorMessage := some (if msg = "" then "Failed to generate lyrics." else msg),
           status := .ERROR }

/-- From the App component: handleStop sets the abort flag and returns to
IDLE. -/
def handleStop (s : AppState) : AppState :=
  { s with abortFlag := true, status := .IDLE }

/-- From the App component: the New Song button clears the file and returns
to IDLE. -/
def handleNewSong (s : AppState) : AppState :=
  { s with audioFile := none, status := .IDLE }

/-- From the App component: downloadLrc exports the raw LRC text verbatim,
or nothing when it is empty. -/
def downloadLrc (s : AppState) : Option String :=
  if s.rawLrc = "" then none else some s.rawLrc

/-- The user and asynchronous events driving the App component. -/
inductive Event where
  | fileSelect (name : String)
  | setTempKey (key : String)
  | saveApiKey
  | openSettings
  | closeSettings
  | generateStart
  | readerLoad
  | readerFail
  | backendSuccess (lrc : String)
  | backendFailure (msg : String)
  | stop
  | newSong
  | timeUpdate (t : ℚ)
deriving DecidableEq, Repr

/-- One transition of the App component. -/
def step (s : AppState) : Event → AppState
  | .fileSelect name => handleFileSelect s name
  | .setTempKey k => { s with tempApiKey := k }
  | .saveApiKey => handleSaveApiKey s
  | .openSettings => { s with showSettings := true }
  | .closeSettings => { s with showSettings := false }
  | .generateStart => handleGenerateLyrics s
  | .readerLoad => readerOnLoad s
  | .readerFail => readerOnError s
  | .backendSuccess lrc => backendResolve s lrc
  | .backendFailure msg => backendReject s msg
  | .stop => handleStop s
  | .newSong => handleNewSong s
  | .timeUpdate t => { s with currentTime := t }

/-- Run a list of events. -/
def run (s : AppState) (evs : List Event) : AppState := evs.foldl step s

/-- The App component's initial state. -/
def initState : AppState :=
  { status := .IDLE,
    audioFile := none,
    lyrics := [],
    rawLrc := "",
    currentTime := 0,
    isPlaying := false,
    errorMessage := none,
    showSettings := false,
    userApiKey := "",
    tempApiKey := "",
    abortFlag := false,
    readsStarted := 0 }

/-- The asynchronous completion events: a file read finishing or failing, a
backend call resolving or rejecting. -/
def isArrival : Event → Bool
  | .readerLoad => true
  | .readerFail => true
  | .backendSuccess _ => true
  | .backendFailure _ => true
  | _ => false

/-- The only events whose handler writes the lyrics or rawLrc state. -/
def touchesLyrics : Event → Bool
  | .fileSelect _ => true
  | .backendSuccess _ => true
  | _ => false

/-- How one further candidate at an already-present time changes the merged
record: it becomes the translation when none is present yet, and is dropped
otherwise; at a fresh time it becomes a new primary record. -/
def bumpRecord (c : Cand) : Option LyricLine → LyricLine
  | none => newRecord c
  | some r => if r.translation = none then { r with translation := some c.text } else r

/-- A trace in which the user stops generation attempt one after its file
read completed (so its backend call is in flight), starts attempt two, and
then attempt one's stale backend result arrives - before attempt two's file
read has even completed, so the arrival can only belong to the stopped
attempt. -/
def staleSuccessTrace : List Event :=
  [.setTempKey "k", .saveApiKey, .fileSelect "song", .generateStart, .readerLoad,
   .stop, .generateStart, .backendSuccess "[00:01.00]Hi"]

/-- A trace in which attempt one is stopped while its backend call is in
flight, attempt two completes successfully, and then attempt one's stale
backend error arrives. -/
def staleErrorTrace : List Event :=
  [.setTempKey "k", .saveApiKey, .fileSelect "song", .generateStart, .readerLoad,
   .stop, .generateStart, .readerLoad, .backendSuccess "[00:01.00]Hi",
   .backendFailure "boom"]

/-- A trace of one successful generation. -/
def successTrace : List Event :=
  [.setTempKey "k", .saveApiKey, .fileSelect "song", .generateStart, .readerLoad,
   .backendSuccess "[00:01.00]Hi"]

/-! ### Resolver lemmas -/

theorem resolveActiveIndex_nil (t : ℚ) : resolveActiveIndex [] t = none := rfl

theorem resolveActiveIndex_cons (l : LyricLine) (ls : List LyricLine) (t : ℚ) :
    resolveActiveIndex (l :: ls) t =
      match resolveActiveIndex ls t with
      | some i => some (i + 1)
      | none => if l.time ≤ t then some 0 else none := rfl

theorem resolveActiveIndex_eq_none_iff (seq : List LyricLine) (t : ℚ) :
    resolveActiveIndex seq t = none ↔ ∀ l ∈ seq, t < l.time := by
  induction seq with
  | nil => simp [resolveActiveIndex]
  | cons l ls ih =>
    rw [resolveActiveIndex_cons]
    cases h : resolveActiveIndex ls t with
    | some i => simp only [h] at ih; simp [← ih, h]
    | none =>
      rw [h] at ih
      by_cases hl : l.time ≤ t
      · simp [hl, not_lt.mpr hl]
      · simp only [if_neg hl]
        simp [not_le.mp hl, ← ih]

theorem resolveActiveIndex_eq_some (seq : List LyricLine) (t : ℚ) (i : ℕ)
    (h : resolveActiveIndex seq t = some i) :
    ∃ hi : i < seq.length, (seq.get ⟨i, hi⟩).time ≤ t ∧
      ∀ j, ∀ hj : j < seq.length, (seq.get ⟨j, hj⟩).time ≤ t → j ≤ i := by
  induction seq generalizing i with
  | nil => simp [resolveActiveIndex] at h
  | cons l ls ih =>
    rw [resolveActiveIndex_cons] at h
    cases hrec : resolveActiveIndex ls t with
    | some k =>
      rw [hrec] at h
      simp only [Option.some.injEq] at h
      obtain ⟨hk, hk1, hk2⟩ := ih k hrec
      subst h
      refine ⟨by simpa using Nat.succ_lt_succ hk, by simpa using hk1, ?_⟩
      intro j hj hjt
      cases j with
      | zero => exact Nat.zero_le _
      | succ j' =>
        have hj' : j' < ls.length := by simpa using hj
        have := hk2 j' hj' (by simpa using hjt)
        omega
    | none =>
      rw [hrec] at h
      by_cases hl : l.time ≤ t
      · rw [if_pos hl] at h
        simp only [Option.some.injEq] at h
        subst h
        refine ⟨by simp, by simpa using hl, ?_⟩
        intro j hj hjt
        cases j with
        | zero => exact le_refl 0
        | succ j' =>
          exfalso
          have hall := (resolveActiveIndex_eq_none_iff ls t).mp hrec
          have hj' : j' < ls.length := by simpa using hj
          have hmem : ls.get ⟨j', hj'⟩ ∈ ls := List.get_mem ls j' hj'
          have := hall _ hmem
          have : t < (ls.get ⟨j', hj'⟩).time := this
          simp only [List.get_cons_succ] at hjt
          exact absurd hjt (not_le.mpr this)
      · rw [if_neg hl] at h
        exact absurd h (by simp)

/-- Claim C1: for every parsed (time-sorted) sequence and every current
time, the resolver returns none exactly when the sequence is empty or the
current time is before the first line's time; a some result is exactly the
greatest index whose time does not exceed the current time; and whenever
the last line's time has been reached the result is the last index. -/
theorem resolveActiveIndex_spec (seq : List LyricLine) (t : ℚ)
    (hs : seq.Pairwise lineLE) :
    (resolveActiveIndex seq t = none ↔ seq = [] ∨ ∀ l0 ∈ seq.head?, t < l0.time) ∧
    (∀ i, resolveActiveIndex seq t = some i ↔
      ∃ hi : i < seq.length, (seq.get ⟨i, hi⟩).time ≤ t ∧
        ∀ j, ∀ hj : j < seq.length, (seq.get ⟨j, hj⟩).time ≤ t → j ≤ i) ∧
    (∀ llast ∈ seq.getLast?, llast.time ≤ t →
      resolveActiveIndex seq t = some (seq.length - 1)) := by
  have hsome : ∀ i, resolveActiveIndex seq t = some i ↔
      ∃ hi : i < seq.length, (seq.get ⟨i, hi⟩).time ≤ t ∧
        ∀ j, ∀ hj : j < seq.length, (seq.get ⟨j, hj⟩).time ≤ t → j ≤ i := by
    intro i
    constructor
    · exact resolveActiveIndex_eq_some seq t i
    · rintro ⟨hi, h1, h2⟩
      cases h : resolveActiveIndex seq t with
      | none =>
        exfalso
        have hall := (resolveActiveIndex_eq_none_iff seq t).mp h
        exact absurd h1 (not_le.mpr (hall _ (List.get_mem seq i hi)))
      | some k =>
        obtain ⟨hk, hk1, hk2⟩ := resolveActiveIndex_eq_some seq t k h
        have hik : i ≤ k := hk2 i hi h1
        have hki : k ≤ i := h2 k hk hk1
        rw [Nat.le_antisymm hki hik]
  refine ⟨?_, hsome, ?_⟩
  · rw [resolveActiveIndex_eq_none_iff]
    cases seq with
    | nil => simp
    | cons a as =>
      simp only [List.head?_cons, Option.mem_def, Option.some.injEq,
        List.cons_ne_nil, false_or]
      constructor
      · intro hall l0 hl0
        subst hl0
        exact hall a (List.mem_cons_self a as)
      · intro hfirst l hl
        have ha : t < a.time := hfirst a rfl
        rcases List.mem_cons.mp hl with rfl | hmem
        · exact ha
        · have := (List.pairwise_cons.mp hs).1 l hmem
          exact lt_of_lt_of_le ha this
  · intro llast hmem hle
    obtain ⟨hne, heq⟩ := List.mem_getLast?_eq_getLast hmem
    have hlen : 0 < seq.length := List.length_pos.mpr hne
    have hidx : seq.length - 1 < seq.length := by omega
    have hget : llast = seq.get ⟨seq.length - 1, hidx⟩ := by
      rw [heq, List.getLast_eq_getElem]
      simp [List.get_eq_getElem]
    exact (hsome (seq.length - 1)).mpr
      ⟨hidx, by rw [← hget]; exact hle, fun j hj _ => by omega⟩

/-- Witness for C1 at the spec's example sequence (times 0, 5, 10) and
current time 5: the hypotheses hold and the resolver yields index 1. -/
theorem resolveActiveIndex_spec_witness :
    ([⟨0, "A", none, "[00:00.00]"⟩, ⟨5, "B", none, "[00:05.00]"⟩,
      ⟨10, "C", none, "[00:10.00]"⟩] : List LyricLine).Pairwise lineLE ∧
    (resolveActiveIndex [⟨0, "A", none, "[00:00.00]"⟩, ⟨5, "B", none, "[00:05.00]"⟩,
      ⟨10, "C", none, "[00:10.00]"⟩] 5 = none ↔
      ([⟨0, "A", none, "[00:00.00]"⟩, ⟨5, "B", none, "[00:05.00]"⟩,
        ⟨10, "C", none, "[00:10.00]"⟩] : List LyricLine) = [] ∨
      ∀ l0 ∈ ([⟨0, "A", none, "[00:00.00]"⟩, ⟨5, "B", none, "[00:05.00]"⟩,
        ⟨10, "C", none, "[00:10.00]"⟩] : List LyricLine).head?, 5 < l0.time) :=
  ⟨by decide,
   (resolveActiveIndex_spec [⟨0, "A", none, "[00:00.00]"⟩, ⟨5, "B", none, "[00:05.00]"⟩,
      ⟨10, "C", none, "[00:10.00]"⟩] 5 (by decide)).1⟩

/-! ### Parser lemmas -/

theorem splitNL_no_newline (l : List Char) (h : ∀ c ∈ l, c ≠ '\n') :
    splitNL l = [l] := by
  induction l with
  | nil => rfl
  | cons c rest ih =>
    have hc : c ≠ '\n' := h c (List.mem_cons_self c rest)
    have hrest : splitNL rest = [rest] := ih fun d hd => h d (List.mem_cons_of_mem c hd)
    simp [splitNL, hc, hrest]

theorem dropCR_no_cr (l : List Char) (h : ∀ c ∈ l, c ≠ '\r') : dropCR l = l := by
  unfold dropCR
  cases hl : l.getLast? with
  | none => simp
  | some c =>
    obtain ⟨hne, heq⟩ := List.mem_getLast?_eq_getLast hl
    have hmem : c ∈ l := heq ▸ List.getLast_mem hne
    simp [h c hmem]

theorem parseTagsAux_none (fuel : ℕ) (l : List Char) (h : matchTag l = none) :
    parseTagsAux fuel l = ([], l) := by
  cases fuel with
  | zero => rfl
  | succ f => simp [parseTagsAux, h]

theorem parseTags_single (l rest : List Char) (t : ℚ) (tag : String)
    (h : matchTag l = some (t, tag, rest)) (hr : matchTag rest = none) :
    parseTags l = ([(t, tag)], rest) := by
  cases l with
  | nil => simp [matchTag] at h
  | cons a l2 =>
    show parseTagsAux (a :: l2).length (a :: l2) = _
    rw [List.length_cons]
    simp [parseTagsAux, h, parseTagsAux_none _ _ hr]

theorem matchTag_tag_cons (m1 m2 s1 s2 c1 c2 : Char) (rest : List Char)
    (hm1 : m1.isDigit = true) (hm2 : m2.isDigit = true)
    (hs1 : s1.isDigit = true) (hs2 : s2.isDigit = true)
    (hc1 : c1.isDigit = true) (hc2 : c2.isDigit = true) :
    matchTag ('[' :: m1 :: m2 :: ':' :: s1 :: s2 :: '.' :: c1 :: c2 :: ']' :: rest) =
      some (tagTime m1 m2 s1 s2 (digitVal c1 * 10 + digitVal c2) 100,
        String.mk ['[', m1, m2, ':', s1, s2, '.', c1, c2, ']'], rest) := by
  simp [matchTag, hm1, hm2, hs1, hs2, hc1, hc2]

theorem digit_not_special (c : Char) (h : c.isDigit = true) :
    c ≠ '\n' ∧ c ≠ '\r' := by
  constructor <;> rintro rfl <;> exact absurd h (by decide)


theorem sort_merge_one_cand (c : Cand) :
    List.insertionSort lineLE (mergeCands [c]) = [newRecord c] := rfl

theorem lineCands_single (l rest : List Char) (t : ℚ) (tag : String)
    (h : matchTag l = some (t, tag, rest)) (hr : matchTag rest = none) :
    lineCands l = [{ time := t, text := String.mk (trimChars rest), tag := tag }] := by
  unfold lineCands
  rw [parseTags_single _ _ _ _ h hr]
  simp

/-- Claim C2: parsing an input consisting of one line with exactly one valid
two-digit-fraction timestamp tag followed by text (the text holding no
further tag and no line-break character) yields exactly one record, whose
time is minutes*60 + seconds + fraction/100 and whose text is the remainder
trimmed of leading and trailing whitespace. -/
theorem parseLrc_single_tag_line (m1 m2 s1 s2 c1 c2 : Char) (text : String)
    (hm1 : m1.isDigit = true) (hm2 : m2.isDigit = true)
    (hs1 : s1.isDigit = true) (hs2 : s2.isDigit = true)
    (hc1 : c1.isDigit = true) (hc2 : c2.isDigit = true)
    (hch : ∀ c ∈ text.data, c ≠ '\n' ∧ c ≠ '\r')
    (hnt : matchTag text.data = none) :
    parseLrc (String.mk ('[' :: m1 :: m2 :: ':' :: s1 :: s2 :: '.' :: c1 :: c2 :: ']' ::
        text.data)) =
      [{ time := ((digitVal m1 : ℚ) * 10 + (digitVal m2 : ℚ)) * 60 +
           ((digitVal s1 : ℚ) * 10 + (digitVal s2 : ℚ)) +
           ((digitVal c1 : ℚ) * 10 + (digitVal c2 : ℚ)) / 100,
         text := String.mk (trimChars text.data),
         translation := none,
         originalTimeTag := String.mk ['[', m1, m2, ':', s1, s2, '.', c1, c2, ']'] }] := by
  have hnonl : ∀ c ∈ ('[' :: m1 :: m2 :: ':' :: s1 :: s2 :: '.' :: c1 :: c2 :: ']' ::
      text.data), c ≠ '\n' := by
    intro c hc
    simp only [List.mem_cons] at hc
    rcases hc with rfl | rfl | rfl | rfl | rfl | rfl | rfl | rfl | rfl | rfl | hc
    · decide
    · exact (digit_not_special _ hm1).1
    · exact (digit_not_special _ hm2).1
    · decide
    · exact (digit_not_special _ hs1).1
    · exact (digit_not_special _ hs2).1
    · decide
    · exact (digit_not_special _ hc1).1
    · exact (digit_not_special _ hc2).1
    · decide
    · exact (hch c hc).1
  have hnocr : ∀ c ∈ ('[' :: m1 :: m2 :: ':' :: s1 :: s2 :: '.' :: c1 :: c2 :: ']' ::
      text.data), c ≠ '\r' := by
    intro c hc
    simp only [List.mem_cons] at hc
    rcases hc with rfl | rfl | rfl | rfl | rfl | rfl | rfl | rfl | rfl | rfl | hc
    · decide
    · exact (digit_not_special _ hm1).2
    · exact (digit_not_special _ hm2).2
    · decide
    · exact (digit_not_special _ hs1).2
    · exact (digit_not_special _ hs2).2
    · decide
    · exact (digit_not_special _ hc1).2
    · exact (digit_not_special _ hc2).2
    · decide
    · exact (hch c hc).2
  have hmt := matchTag_tag_cons m1 m2 s1 s2 c1 c2 text.data hm1 hm2 hs1 hs2 hc1 hc2
  have hlc := lineCands_single _ _ _ _ hmt hnt
  unfold parseLrc
  rw [show (String.mk ('[' :: m1 :: m2 :: ':' :: s1 :: s2 :: '.' :: c1 :: c2 :: ']' ::
      text.data)).data = '[' :: m1 :: m2 :: ':' :: s1 :: s2 :: '.' :: c1 :: c2 :: ']' ::
      text.data from rfl]
  rw [splitNL_no_newline _ hnonl]
  simp only [List.map_cons, List.map_nil]
  rw [dropCR_no_cr _ hnocr]
  unfold parseFromLines
  simp only [List.map_cons, List.map_nil, hlc, List.flatten, List.append_nil]
  rw [sort_merge_one_cand]
  unfold newRecord tagTime
  simp only [List.cons.injEq, LyricLine.mk.injEq, and_true, true_and]
  push_cast
  ring

/-- Witness for C2 at the concrete line [01:23.45] followed by the text
" Hello ": every hypothesis holds and the parse is the single record with
time 1*60+23+45/100 and trimmed text. -/
theorem parseLrc_single_tag_line_witness :
    parseLrc (String.mk ('[' :: '0' :: '1' :: ':' :: '2' :: '3' :: '.' :: '4' :: '5' :: ']' ::
        " Hello ".data)) =
      [{ time := ((digitVal '0' : ℚ) * 10 + (digitVal '1' : ℚ)) * 60 +
           ((digitVal '2' : ℚ) * 10 + (digitVal '3' : ℚ)) +
           ((digitVal '4' : ℚ) * 10 + (digitVal '5' : ℚ)) / 100,
         text := String.mk (trimChars " Hello ".data),
         translation := none,
         originalTimeTag := String.mk ['[', '0', '1', ':', '2', '3', '.', '4', '5', ']'] }] :=
  parseLrc_single_tag_line '0' '1' '2' '3' '4' '5' " Hello "
    (by decide) (by decide) (by decide) (by decide) (by decide) (by decide)
    (by decide) (by decide)

theorem lineCands_no_tag (l : List Char) (h : matchTag l = none) : lineCands l = [] := by
  unfold lineCands parseTags
  rw [parseTagsAux_none _ _ h]
  simp

/-- Claim C6: the parse operation is a total function into plain record
lists (it can raise nothing); a line matching no timestamp tag contributes
nothing to the result, and an input all of whose lines match no tag parses
to the empty sequence. -/
theorem parseLrc_total_and_skips :
    (∀ pre post (bad : List Char), matchTag bad = none →
      parseFromLines (pre ++ bad :: post) = parseFromLines (pre ++ post)) ∧
    (∀ s : String, (∀ l ∈ (splitNL s.data).map dropCR, matchTag l = none) →
      parseLrc s = []) := by
  constructor
  · intro pre post bad hbad
    unfold parseFromLines
    rw [List.map_append, List.map_cons, lineCands_no_tag bad hbad, List.map_append]
    simp
  · intro s hall
    unfold parseLrc parseFromLines
    have hfl : (((splitNL s.data).map dropCR).map lineCands).flatten = [] := by
      rw [List.flatten_eq_nil_iff]
      intro x hx
      obtain ⟨l, hl, rfl⟩ := List.mem_map.mp hx
      exact lineCands_no_tag l (hall l hl)
    rw [hfl]
    rfl

/-- Witness for C6: dropping the tagless line "Album: Test" leaves the
parse unchanged. -/
theorem parseLrc_total_and_skips_witness :
    parseFromLines ([] ++ "Album: Test".data :: []) = parseFromLines ([] ++ []) :=
  parseLrc_total_and_skips.1 [] [] ("Album: Test".data) (by decide)

/-! ### Merge lemmas -/

theorem findTime_cons_pos (t : ℚ) (r : LyricLine) (rs : List LyricLine)
    (h : r.time = t) : findTime t (r :: rs) = some r := by
  unfold findTime
  rw [List.find?_cons_of_pos _ (by simp [h])]

theorem findTime_cons_neg (t : ℚ) (r : LyricLine) (rs : List LyricLine)
    (h : ¬ r.time = t) : findTime t (r :: rs) = findTime t rs := by
  unfold findTime
  rw [List.find?_cons_of_neg _ (by simp [h])]

theorem addCand_cons_eq (r : LyricLine) (rs : List LyricLine) (c : Cand)
    (h : r.time = c.time) :
    addCand (r :: rs) c =
      (if r.translation = none then { r with translation := some c.text } else r) :: rs := by
  simp [addCand, h]

theorem addCand_cons_ne (r : LyricLine) (rs : List LyricLine) (c : Cand)
    (h : ¬ r.time = c.time) :
    addCand (r :: rs) c = r :: addCand rs c := by
  simp [addCand, h]

theorem addCand_time_map (acc : List LyricLine) (c : Cand) :
    (addCand acc c).map LyricLine.time =
      if c.time ∈ acc.map LyricLine.time then acc.map LyricLine.time
      else acc.map LyricLine.time ++ [c.time] := by
  induction acc with
  | nil => simp [addCand, newRecord]
  | cons r rs ih =>
    by_cases h : r.time = c.time
    · rw [addCand_cons_eq r rs c h,
        if_pos (show c.time ∈ (r :: rs).map LyricLine.time by
          rw [List.map_cons]
          exact List.mem_cons.mpr (Or.inl h.symm))]
      by_cases ht : r.translation = none <;> simp [ht]
    · rw [addCand_cons_ne r rs c h, List.map_cons, List.map_cons, ih]
      by_cases hm : c.time ∈ rs.map LyricLine.time
      · rw [if_pos hm, if_pos (by simp [hm])]
      · rw [if_neg hm, if_neg (by
          simp only [List.mem_cons, not_or]
          exact ⟨fun heq => h heq.symm, hm⟩)]
        simp
  

theorem foldl_addCand_time_nodup (cs : List Cand) (acc : List LyricLine)
    (h : (acc.map LyricLine.time).Nodup) :
    ((cs.foldl addCand acc).map LyricLine.time).Nodup := by
  induction cs generalizing acc with
  | nil => exact h
  | cons c cs ih =>
    rw [List.foldl_cons]
    apply ih
    rw [addCand_time_map]
    by_cases hm : c.time ∈ acc.map LyricLine.time
    · rw [if_pos hm]; exact h
    · rw [if_neg hm, List.nodup_append]
      exact ⟨h, List.nodup_singleton _, by simpa using hm⟩

theorem mergeCands_time_nodup (cs : List Cand) :
    ((mergeCands cs).map LyricLine.time).Nodup :=
  foldl_addCand_time_nodup cs [] (by simp)

theorem findTime_addCand (acc : List LyricLine) (c : Cand) (t : ℚ) :
    findTime t (addCand acc c) =
      if c.time = t then some (bumpRecord c (findTime t acc)) else findTime t acc := by
  induction acc with
  | nil =>
    by_cases h : c.time = t
    · rw [if_pos h]
      show findTime t [newRecord c] = _
      rw [findTime_cons_pos _ _ _ h]
      rfl
    · rw [if_neg h]
      show findTime t [newRecord c] = findTime t []
      rw [findTime_cons_neg _ _ _ h]
  | cons r rs ih =>
    by_cases hrc : r.time = c.time
    · rw [addCand_cons_eq r rs c hrc]
      by_cases hct : c.time = t
      · have hrt : r.time = t := hrc.trans hct
        rw [if_pos hct, findTime_cons_pos _ _ _ hrt,
          findTime_cons_pos _ _ _ (by by_cases ht : r.translation = none <;> simp [ht, hrt])]
        by_cases ht : r.translation = none <;> simp [ht, bumpRecord]
      · have hrt : ¬ r.time = t := fun hh => hct (hrc.symm.trans hh)
        rw [if_neg hct, findTime_cons_neg _ _ _ hrt,
          findTime_cons_neg _ _ _ (by by_cases ht : r.translation = none <;> simp [ht, hrt])]
    · rw [addCand_cons_ne r rs c hrc]
      by_cases hrt : r.time = t
      · have hct : ¬ c.time = t := fun hh => hrc (hrt.trans hh.symm)
        rw [if_neg hct, findTime_cons_pos _ _ _ hrt, findTime_cons_pos _ _ _ hrt]
      · rw [findTime_cons_neg _ _ _ hrt, findTime_cons_neg _ _ _ hrt, ih]

theorem mergeGroup_concat (g : List Cand) (c : Cand) :
    mergeGroup (g ++ [c]) = some (bumpRecord c (mergeGroup g)) := by
  cases g with
  | nil => simp [mergeGroup, bumpRecord, newRecord]
  | cons c1 rest =>
    cases rest with
    | nil => simp [mergeGroup, bumpRecord]
    | cons c2 rest2 => simp [mergeGroup, bumpRecord]

theorem findTime_mergeCands (cs : List Cand) (t : ℚ) :
    findTime t (mergeCands cs) = mergeGroup (cs.filter fun c => decide (c.time = t)) := by
  induction cs using List.reverseRecOn with
  | nil => rfl
  | append_singleton cs c ih =>
    rw [show mergeCands (cs ++ [c]) = addCand (mergeCands cs) c by
      unfold mergeCands
      rw [List.foldl_append]
      rfl]
    rw [findTime_addCand, ih, List.filter_append]
    by_cases h : c.time = t
    · rw [if_pos h, show [c].filter (fun c => decide (c.time = t)) = [c] by simp [h]]
      rw [mergeGroup_concat]
    · rw [if_neg h, show [c].filter (fun c => decide (c.time = t)) = [] by simp [h]]
      rw [List.append_nil]

theorem findTime_of_mem (M : List LyricLine) (r : LyricLine)
    (hnd : (M.map LyricLine.time).Nodup) (hr : r ∈ M) :
    findTime r.time M = some r := by
  induction M with
  | nil => simp at hr
  | cons a as ih =>
    rcases List.mem_cons.mp hr with rfl | hmem
    · exact findTime_cons_pos _ _ _ rfl
    · have hnd2 := hnd
      rw [List.map_cons, List.nodup_cons] at hnd2
      have ha : ¬ a.time = r.time := by
        intro heq
        exact hnd2.1 (heq ▸ List.mem_map_of_mem _ hmem)
      rw [findTime_cons_neg _ _ _ ha]
      exact ih hnd2.2 hmem

/-- Claim C3: the parse never emits two records with equal time; for each
emitted record the first candidate (in original file order) at its time
supplies the text and the second candidate, when present, supplies the
translation (any later candidate at that time is dropped); and every
candidate time is represented by exactly one emitted record. -/
theorem parseLrc_merge_spec (s : String) :
    ((parseLrc s).map LyricLine.time).Pairwise (fun a b => a < b) ∧
    (∀ r ∈ parseLrc s, ∃ c1 cs2,
      (candidatesOf s).filter (fun c => decide (c.time = r.time)) = c1 :: cs2 ∧
      r.text = c1.text ∧ r.translation = cs2.head?.map Cand.text) ∧
    (∀ c ∈ candidatesOf s, ∃ r ∈ parseLrc s, r.time = c.time) := by
  have hM : parseLrc s = List.insertionSort lineLE (mergeCands (candidatesOf s)) := rfl
  have hnd : ((mergeCands (candidatesOf s)).map LyricLine.time).Nodup :=
    mergeCands_time_nodup (candidatesOf s)
  have hperm : List.Perm (List.insertionSort lineLE (mergeCands (candidatesOf s)))
      (mergeCands (candidatesOf s)) := List.perm_insertionSort _ _
  have hndout : ((parseLrc s).map LyricLine.time).Nodup := by
    rw [hM]
    exact ((hperm.map LyricLine.time).nodup_iff).mpr hnd
  have hsorted : (parseLrc s).Pairwise lineLE := by
    rw [hM]
    exact List.sorted_insertionSort lineLE (mergeCands (candidatesOf s))
  refine ⟨?_, ?_, ?_⟩
  · have h1 : (parseLrc s).Pairwise fun a b => a.time ≤ b.time := hsorted
    have h2 : (parseLrc s).Pairwise fun a b => a.time ≠ b.time :=
      List.pairwise_map.mp hndout
    rw [List.pairwise_map]
    exact (h1.and h2).imp fun h => lt_of_le_of_ne h.1 h.2
  · intro r hr
    have hrM : r ∈ mergeCands (candidatesOf s) := hperm.mem_iff.mp (hM ▸ hr)
    have hf := findTime_of_mem _ r hnd hrM
    rw [findTime_mergeCands] at hf
    cases hg : (candidatesOf s).filter (fun c => decide (c.time = r.time)) with
    | nil =>
      rw [hg] at hf
      simp [mergeGroup] at hf
    | cons c1 cs2 =>
      rw [hg] at hf
      simp only [mergeGroup, Option.some.injEq] at hf
      exact ⟨c1, cs2, rfl, by rw [← hf], by rw [← hf]⟩
  · intro c hc
    have hf := findTime_mergeCands (candidatesOf s) c.time
    cases hg : (candidatesOf s).filter (fun d => decide (d.time = c.time)) with
    | nil =>
      exfalso
      have hcf : c ∈ (candidatesOf s).filter (fun d => decide (d.time = c.time)) :=
        List.mem_filter.mpr ⟨hc, by simp⟩
      rw [hg] at hcf
      simp at hcf
    | cons c1 cs2 =>
      rw [hg] at hf
      simp only [mergeGroup] at hf
      have hmem := List.mem_of_find?_eq_some hf
      have hdec := List.find?_some hf
      have htime : c1.time = c.time := by
        have hc1 : c1 ∈ (candidatesOf s).filter (fun d => decide (d.time = c.time)) := by
          rw [hg]
          exact List.mem_cons_self c1 cs2
        simpa using (List.mem_filter.mp hc1).2
      refine ⟨⟨c1.time, c1.text, cs2.head?.map Cand.text, c1.tag⟩, ?_, ?_⟩
      · rw [hM]
        exact hperm.mem_iff.mpr hmem
      · exact htime

/-- Witness for C3 at the spec's example input with a duplicated timestamp:
the record at time 10 draws its text from the first candidate and its
translation from the second. -/
theorem parseLrc_merge_spec_witness :
    ∃ c1 cs2,
      (candidatesOf "[00:10.00]Hello\n[00:10.00]Bonjour").filter
        (fun c => decide (c.time =
          ({ time := 10, text := "Hello", translation := some "Bonjour",
             originalTimeTag := "[00:10.00]" } : LyricLine).time)) = c1 :: cs2 ∧
      ({ time := 10, text := "Hello", translation := some "Bonjour",
         originalTimeTag := "[00:10.00]" } : LyricLine).text = c1.text ∧
      ({ time := 10, text := "Hello", translation := some "Bonjour",
         originalTimeTag := "[00:10.00]" } : LyricLine).translation =
        cs2.head?.map Cand.text := by
  have hval : tagTime '0' '0' '1' '0' (digitVal '0' * 10 + digitVal '0') 100 = 10 := by
    norm_num [tagTime, digitVal, show Char.toNat '0' = 48 from rfl,
      show Char.toNat '1' = 49 from rfl]
  have heval : parseLrc "[00:10.00]Hello\n[00:10.00]Bonjour" =
      [{ time := 10, text := "Hello", translation := some "Bonjour",
         originalTimeTag := "[00:10.00]" }] := by
    simp [parseLrc, parseFromLines, splitNL, dropCR, lineCands, parseTags, parseTagsAux,
      matchTag, trimChars, mergeCands, addCand, newRecord, List.insertionSort,
      List.orderedInsert, hval]
  exact (parseLrc_merge_spec "[00:10.00]Hello\n[00:10.00]Bonjour").2.1
    { time := 10, text := "Hello", translation := some "Bonjour",
      originalTimeTag := "[00:10.00]" }
    (by rw [heval]; exact List.mem_cons_self _ _)

/-! ### App state machine lemmas -/

theorem step_aborted_arrival (s : AppState) (e : Event)
    (hab : s.abortFlag = true) (he : isArrival e = true) : step s e = s := by
  cases e <;> simp_all [step, isArrival, readerOnLoad, readerOnError, backendResolve,
    backendReject]

theorem run_aborted_arrivals (u : AppState) (evs : List Event)
    (hu : u.abortFlag = true) (h : ∀ e ∈ evs, isArrival e = true) : run u evs = u := by
  induction evs with
  | nil => rfl
  | cons e es ih =>
    have h1 : step u e = u := step_aborted_arrival u e hu (h e (List.mem_cons_self e es))
    show List.foldl step (step u e) es = u
    rw [h1]
    exact ih fun e2 he2 => h e2 (List.mem_cons_of_mem e he2)

/-- Claim C4 counterexample: in staleSuccessTrace the user stops attempt
one while its backend call is in flight and then starts attempt two; when
attempt one's stale result arrives (necessarily stale, as attempt two's
file read has not yet completed so attempt two has no backend call) it is
applied rather than discarded: the abort flag was reset by the new attempt,
so status moves to COMPLETE and rawLrc and lyrics take the stale values. -/
theorem stale_result_applied_after_restart :
    (run initState staleSuccessTrace).status = ProcessingStatus.COMPLETE ∧
    (run initState staleSuccessTrace).rawLrc = "[00:01.00]Hi" ∧
    (run initState staleSuccessTrace).lyrics ≠ [] := by
  refine ⟨by decide, by decide, ?_⟩
  intro h
  exact absurd h (by decide)

/-- Claim C4 (amended): a result or error arriving after handleStop is
discarded, leaving the state untouched, as long as no new generation
attempt has been started in between; a new attempt resets the shared abort
flag, after which a stale arrival is applied as if it were current. -/
theorem stop_discards_until_new_attempt (s : AppState) (evs : List Event)
    (h : ∀ e ∈ evs, isArrival e = true) :
    run (handleStop s) evs = handleStop s :=
  run_aborted_arrivals (handleStop s) evs rfl h

/-- Witness for the amended C4: a stale backend result and a stale reader
error arriving after a stop leave the stopped state unchanged. -/
theorem stop_discards_until_new_attempt_witness :
    run (handleStop initState) [Event.backendSuccess "x", Event.readerFail] =
      handleStop initState :=
  stop_discards_until_new_attempt initState
    [Event.backendSuccess "x", Event.readerFail] (by decide)

/-- Claim C5: after a (non-aborted) successful generation the download
operation exports exactly the raw LRC string the backend returned, and the
export does not depend on the parsed lyric state at all. -/
theorem downloadLrc_verbatim (s : AppState) (lrc : String) (L : List LyricLine)
    (hab : s.abortFlag = false) (hne : lrc ≠ "") :
    downloadLrc (step s (.backendSuccess lrc)) = some lrc ∧
    downloadLrc { s with lyrics := L } = downloadLrc s := by
  constructor
  · simp [step, backendResolve, hab, downloadLrc, hne]
  · rfl

/-- Witness for C5 at a concrete state and raw string. -/
theorem downloadLrc_verbatim_witness :
    downloadLrc (step initState (.backendSuccess "[00:01.00]Hi")) =
      some "[00:01.00]Hi" ∧
    downloadLrc { initState with lyrics := [] } = downloadLrc initState :=
  downloadLrc_verbatim initState "[00:01.00]Hi" [] rfl (by decide)

/-- Claim C7 counterexample: in staleErrorTrace attempt two completes
successfully (populating rawLrc and lyrics) and then attempt one's stale
backend error arrives and is applied: the resulting state has status ERROR
with a message while rawLrc and lyrics are still fully populated, not
empty as the claim requires. -/
theorem backend_failure_with_stale_population :
    (run initState staleErrorTrace).status = ProcessingStatus.ERROR ∧
    (run initState staleErrorTrace).errorMessage = some "boom" ∧
    (run initState staleErrorTrace).rawLrc = "[00:01.00]Hi" ∧
    (run initState staleErrorTrace).rawLrc ≠ "" ∧
    (run initState staleErrorTrace).lyrics ≠ [] := by
  refine ⟨by decide, by decide, by decide, by decide, ?_⟩
  intro h
  exact absurd h (by decide)

/-- Claim C7 (amended): a generation attempt begun by a file selection and
ending in a backend failure, with no stale arrival of an older attempt
interleaved, ends in status ERROR with a human-readable message while
rawLrc and lyrics are empty. -/
theorem backend_failure_clean_state (s : AppState) (name msg : String)
    (hk : s.userApiKey ≠ "") :
    (run s [.fileSelect name, .generateStart, .readerLoad,
        .backendFailure msg]).status = ProcessingStatus.ERROR ∧
    (run s [.fileSelect name, .generateStart, .readerLoad,
        .backendFailure msg]).errorMessage =
      some (if msg = "" then "Failed to generate lyrics." else msg) ∧
    (run s [.fileSelect name, .generateStart, .readerLoad,
        .backendFailure msg]).rawLrc = "" ∧
    (run s [.fileSelect name, .generateStart, .readerLoad,
        .backendFailure msg]).lyrics = [] := by
  simp [run, step, handleFileSelect, handleGenerateLyrics, readerOnLoad,
    backendReject, hk]

/-- Witness for the amended C7 at a concrete state, file and message. -/
theorem backend_failure_clean_state_witness :
    (run { initState with userApiKey := "k" } [.fileSelect "song", .generateStart,
        .readerLoad, .backendFailure "boom"]).status = ProcessingStatus.ERROR ∧
    (run { initState with userApiKey := "k" } [.fileSelect "song", .generateStart,
        .readerLoad, .backendFailure "boom"]).errorMessage =
      some (if "boom" = "" then "Failed to generate lyrics." else "boom") ∧
    (run { initState with userApiKey := "k" } [.fileSelect "song", .generateStart,
        .readerLoad, .backendFailure "boom"]).rawLrc = "" ∧
    (run { initState with userApiKey := "k" } [.fileSelect "song", .generateStart,
        .readerLoad, .backendFailure "boom"]).lyrics = [] :=
  backend_failure_clean_state { initState with userApiKey := "k" } "song" "boom"
    (by decide)

theorem step_preserves_lyric_state (s : AppState) (e : Event)
    (he : touchesLyrics e = false) :
    (step s e).lyrics = s.lyrics ∧ (step s e).rawLrc = s.rawLrc := by
  cases e with
  | fileSelect name => simp [touchesLyrics] at he
  | backendSuccess lrc => simp [touchesLyrics] at he
  | setTempKey k => exact ⟨rfl, rfl⟩
  | saveApiKey => exact ⟨rfl, rfl⟩
  | openSettings => exact ⟨rfl, rfl⟩
  | closeSettings => exact ⟨rfl, rfl⟩
  | generateStart =>
    simp only [step]
    unfold handleGenerateLyrics
    split_ifs <;> exact ⟨rfl, rfl⟩
  | readerLoad =>
    simp only [step]
    unfold readerOnLoad
    split_ifs <;> exact ⟨rfl, rfl⟩
  | readerFail =>
    simp only [step]
    unfold readerOnError
    split_ifs <;> exact ⟨rfl, rfl⟩
  | backendFailure msg =>
    simp only [step]
    unfold backendReject
    split_ifs <;> exact ⟨rfl, rfl⟩
  | stop => exact ⟨rfl, rfl⟩
  | newSong => exact ⟨rfl, rfl⟩
  | timeUpdate t => exact ⟨rfl, rfl⟩

/-- Claim C8: a new file selection empties the held lyric state; a
(non-aborted) successful generation replaces rawLrc and lyrics wholesale
with values computed from the new backend string alone; and no event other
than a file selection or a backend success ever writes the lyric state, so
a stored generation result is never mutated incrementally. -/
theorem generated_lyrics_lifecycle (s : AppState) (name lrc : String) (e : Event)
    (hab : s.abortFlag = false) (he : touchesLyrics e = false) :
    (handleFileSelect s name).lyrics = [] ∧
    (handleFileSelect s name).rawLrc = "" ∧
    (step s (.backendSuccess lrc)).rawLrc = lrc ∧
    (step s (.backendSuccess lrc)).lyrics = parseLrc lrc ∧
    (step s e).lyrics = s.lyrics ∧
    (step s e).rawLrc = s.rawLrc := by
  refine ⟨rfl, rfl, ?_, ?_, (step_preserves_lyric_state s e he).1,
    (step_preserves_lyric_state s e he).2⟩
  · simp [step, backendResolve, hab]
  · simp [step, backendResolve, hab]

/-- Witness for C8 at the initial state, with a stop event as the
non-writing event. -/
theorem generated_lyrics_lifecycle_witness :
    (handleFileSelect initState "song").lyrics = [] ∧
    (handleFileSelect initState "song").rawLrc = "" ∧
    (step initState (.backendSuccess "[00:01.00]Hi")).rawLrc = "[00:01.00]Hi" ∧
    (step initState (.backendSuccess "[00:01.00]Hi")).lyrics =
      parseLrc "[00:01.00]Hi" ∧
    (step initState .stop).lyrics = initState.lyrics ∧
    (step initState .stop).rawLrc = initState.rawLrc :=
  generated_lyrics_lifecycle initState "song" "[00:01.00]Hi" .stop rfl rfl

theorem step_preserves_complete_inv (s : AppState) (e : Event)
    (h : s.status = ProcessingStatus.COMPLETE → s.lyrics = parseLrc s.rawLrc) :
    (step s e).status = ProcessingStatus.COMPLETE →
      (step s e).lyrics = parseLrc (step s e).rawLrc := by
  cases e with
  | fileSelect name => intro hc; simp [step, handleFileSelect] at hc
  | setTempKey k => exact h
  | saveApiKey => exact h
  | openSettings => exact h
  | closeSettings => exact h
  | generateStart =>
    simp only [step]
    unfold handleGenerateLyrics
    split_ifs
    · exact h
    · exact h
    · intro hc; simp at hc
  | readerLoad =>
    simp only [step]
    unfold readerOnLoad
    split_ifs
    · exact h
    · intro hc; simp at hc
  | readerFail =>
    simp only [step]
    unfold readerOnError
    split_ifs
    · exact h
    · intro hc; simp at hc
  | backendSuccess lrc =>
    simp only [step]
    unfold backendResolve
    split_ifs
    · exact h
    · intro _; rfl
  | backendFailure msg =>
    simp only [step]
    unfold backendReject
    split_ifs
    · exact h
    · simp
    · simp
  | stop => intro hc; simp [step, handleStop] at hc
  | newSong => intro hc; simp [step, handleNewSong] at hc
  | timeUpdate t => exact h

theorem run_preserves_complete_inv (s : AppState) (evs : List Event)
    (h : s.status = ProcessingStatus.COMPLETE → s.lyrics = parseLrc s.rawLrc) :
    (run s evs).status = ProcessingStatus.COMPLETE →
      (run s evs).lyrics = parseLrc (run s evs).rawLrc := by
  induction evs generalizing s with
  | nil => exact h
  | cons e es ih =>
    show (run (step s e) es).status = _ → _
    exact ih (step s e) (step_preserves_complete_inv s e h)

/-- Claim C9: in every state reachable from the initial state whose status
is COMPLETE, the displayed lyric sequence equals the parse of the stored
raw LRC text - they always come from the same single generation result. -/
theorem reachable_complete_lyrics_consistent (evs : List Event)
    (h : (run initState evs).status = ProcessingStatus.COMPLETE) :
    (run initState evs).lyrics = parseLrc (run initState evs).rawLrc :=
  run_preserves_complete_inv initState evs (fun hc => absurd hc (by decide)) h

/-- Witness for C9 at a concrete successful trace. -/
theorem reachable_complete_lyrics_consistent_witness :
    (run initState successTrace).lyrics = parseLrc (run initState successTrace).rawLrc :=
  reachable_complete_lyrics_consistent successTrace (by decide)

/-- Claim C10: invoking generation with no selected audio file changes
nothing at all; with a file but an empty stored API key it only opens the
settings modal; in both guard cases status, lyrics, rawLrc, errorMessage
and the count of started file reads are unchanged, so no upload or
generation begins. -/
theorem generate_guard_frame (s : AppState) :
    (s.audioFile = none → step s .generateStart = s) ∧
    (s.audioFile ≠ none → s.userApiKey = "" →
      step s .generateStart = { s with showSettings := true }) ∧
    ((s.userApiKey = "" ∨ s.audioFile = none) →
      (step s .generateStart).status = s.status ∧
      (step s .generateStart).lyrics = s.lyrics ∧
      (step s .generateStart).rawLrc = s.rawLrc ∧
      (step s .generateStart).errorMessage = s.errorMessage ∧
      (step s .generateStart).readsStarted = s.readsStarted) := by
  refine ⟨?_, ?_, ?_⟩
  · intro h
    simp [step, handleGenerateLyrics, h]
  · intro h1 h2
    simp [step, handleGenerateLyrics, h1, h2]
  · intro hor
    by_cases hf : s.audioFile = none
    · simp [step, handleGenerateLyrics, hf]
    · have hk : s.userApiKey = "" := hor.resolve_right hf
      simp [step, handleGenerateLyrics, hf, hk]

/-- Witness for C10: at the initial state (no file selected) the generate
handler is a no-op. -/
theorem generate_guard_frame_witness :
    step initState .generateStart = initState :=
  (generate_guard_frame initState).1 rfl
